import Mathlib

/-!
Verification of the wave-app bulletin parser.

Shallow embedding of the two relevant source files:
* `waveapp_v2/wavecore/timeindex.py` — `hourly_series_from_day_hour`,
  the DayHour timestamp-series builder;
* `app.py` — the relevant pieces of `parse_bull` (header discovery,
  row acceptance, swell-group extraction, direction normalization,
  unit conversion, group padding, and the empty-document error).

Python `datetime` values are modelled as a record of calendar fields with
unbounded year (the year 1..9999 cap of `datetime` is not modelled; no
claim exercises it).  Python floats that carry bulletin readings are
modelled as rationals.
-/

/-- Model of a naive Python `datetime` value: calendar fields.
`replace`, `timedelta(days=1)` and `timedelta(hours=1)` are the only
operations the source applies. -/
structure PyDateTime where
  year : Int
  month : Nat
  day : Nat
  hour : Nat
  minute : Nat
  second : Nat
  usec : Nat
deriving Repr, DecidableEq

/-- Gregorian leap-year rule, as used by `datetime`. -/
def isLeap (y : Int) : Bool :=
  (y % 4 == 0 && y % 100 != 0) || y % 400 == 0

/-- Number of days of month `m` of year `y` (months 1..12). -/
def daysInMonth (y : Int) (m : Nat) : Nat :=
  if m = 2 then (if isLeap y then 29 else 28)
  else if m = 4 ∨ m = 6 ∨ m = 9 ∨ m = 11 then 30
  else 31

/-- The fields of a real `datetime` are always in range; every value the
source constructs satisfies this. -/
def PyDateTime.Valid (t : PyDateTime) : Prop :=
  1 ≤ t.month ∧ t.month ≤ 12 ∧ 1 ≤ t.day ∧ t.day ≤ daysInMonth t.year t.month ∧
    t.hour ≤ 23 ∧ t.minute ≤ 59 ∧ t.second ≤ 59 ∧ t.usec ≤ 999999

instance (t : PyDateTime) : Decidable t.Valid := by
  unfold PyDateTime.Valid; infer_instance

/-- Linear key with lexicographic weights.  For field-valid datetimes this
order coincides with Python `datetime` comparison (chronological order). -/
def PyDateTime.toKey (t : PyDateTime) : Int :=
  (((((t.year * 13 + (t.month : Int)) * 32 + (t.day : Int)) * 24 + (t.hour : Int)) * 60
      + (t.minute : Int)) * 60 + (t.second : Int)) * 1000000 + (t.usec : Int)

/-- `dt + timedelta(days=1)` on the calendar fields. -/
def addDay (t : PyDateTime) : PyDateTime :=
  if t.day + 1 ≤ daysInMonth t.year t.month then { t with day := t.day + 1 }
  else if t.month + 1 ≤ 12 then { t with day := 1, month := t.month + 1 }
  else { t with day := 1, month := 1, year := t.year + 1 }

/-- `dt + timedelta(hours=1)` on the calendar fields. -/
def addHour (t : PyDateTime) : PyDateTime :=
  if t.hour + 1 ≤ 23 then { t with hour := t.hour + 1 }
  else addDay { t with hour := 0 }

/-- `cycle_dt_utc.replace(day=d, hour=h, minute=0, second=0, microsecond=0)`:
`none` models the `ValueError` Python raises when `d` is not a day of the
cycle's month or `h` is not a valid hour. -/
def replaceDayHour (t : PyDateTime) (d h : Int) : Option PyDateTime :=
  if 1 ≤ d ∧ d ≤ (daysInMonth t.year t.month : Int) ∧ 0 ≤ h ∧ h ≤ 23 then
    some { t with day := d.toNat, hour := h.toNat, minute := 0, second := 0, usec := 0 }
  else none

/-- `while dt < cycle_dt_utc: dt += timedelta(days=1)`.  The source runs
this only on `dt = cycle.replace(...)`, which shares `cycle`'s year and
month, so the real loop executes at most 31 times; fuel 40 is exact on
every reachable input. -/
def rollForward : Nat → PyDateTime → PyDateTime → PyDateTime
  | 0, _, dt => dt
  | fuel + 1, cycle, dt =>
      if dt.toKey < cycle.toKey then rollForward fuel cycle (addDay dt) else dt

/-- Model of `tzinfo`: `timezone.utc`, `None` (naive), or any other zone. -/
inductive TZInfo where
  | utc
  | naive
  | named (s : String)
deriving Repr, DecidableEq

/-- The `for day_val, hour_val in day_hour_tuples` loop of
`hourly_series_from_day_hour`, with the mutable `last` threaded
explicitly.  First accepted tuple: anchor by `replace` then roll forward
by days; every later tuple: previous result plus one hour (its own
`(day, hour)` fields are not consulted). -/
def hourlySeriesAux : Option PyDateTime → PyDateTime → List (Int × Int) → List PyDateTime
  | _, _, [] => []
  | none, cycle, (d, h) :: rest =>
      match replaceDayHour cycle d h with
      | none => hourlySeriesAux none cycle rest
      | some dt0 =>
          rollForward 40 cycle dt0 ::
            hourlySeriesAux (some (rollForward 40 cycle dt0)) cycle rest
  | some last, cycle, _ :: rest =>
      addHour last :: hourlySeriesAux (some (addHour last)) cycle rest

/-- `hourly_series_from_day_hour` from `waveapp_v2/wavecore/timeindex.py`:
raises `ValueError` when `cycle_dt_utc.tzinfo != timezone.utc`, otherwise
returns the series built by the loop above. -/
def hourly_series_from_day_hour (tz : TZInfo) (cycle_dt_utc : PyDateTime)
    (day_hour_tuples : List (Int × Int)) : Except String (List PyDateTime) :=
  if tz ≠ TZInfo.utc then
    .error "cycle_dt_utc must be timezone-aware UTC"
  else
    .ok (hourlySeriesAux none cycle_dt_utc day_hour_tuples)

/-! ## Token layer: Python string primitives used by `parse_bull` -/

/-- Whitespace for Python `str.split()` / `str.strip()`. -/
def isWsChar (c : Char) : Bool :=
  c = ' ' ∨ c = '\t' ∨ c = '\n' ∨ c = '\r'

/-- Helper of `pySplit`: split a character list on runs of whitespace. -/
def splitWsAux : List Char → List Char → List (List Char)
  | [], acc => if acc = [] then [] else [acc.reverse]
  | c :: rest, acc =>
      if isWsChar c then
        (if acc = [] then splitWsAux rest [] else acc.reverse :: splitWsAux rest [])
      else splitWsAux rest (c :: acc)

/-- Python `line.split()`: whitespace tokenization, empty tokens dropped. -/
def pySplit (s : String) : List String :=
  (splitWsAux s.toList []).map String.mk

/-- Python `tok.replace` removing asterisks, as used on bulletin tokens: remove every
asterisk character. -/
def stripStars (t : String) : String :=
  String.mk (t.toList.filter (fun c => c ≠ '*'))

/-- Python `s.strip()` on the character list. -/
def trimChars (l : List Char) : List Char :=
  ((l.dropWhile isWsChar).reverse.dropWhile isWsChar).reverse

/-- Python `s.strip()`. -/
def pyStrip (s : String) : String :=
  String.mk (trimChars s.toList)

/-- Python `pat in s`: substring containment. -/
def containsSeq (pat : List Char) : List Char → Bool
  | [] => pat.isEmpty
  | c :: rest => pat.isPrefixOf (c :: rest) || containsSeq pat rest

/-- Python `pat in s` on strings. -/
def containsSub (s pat : String) : Bool :=
  containsSeq pat.toList s.toList

/-- Exact decimal number with value `man / 10 ^ exp`: a
reduction-friendly model of the finite decimal literals a bulletin
carries and of the products the parser forms from them.  (Python stores
these as binary floats; every claim-relevant computation here is exact,
so exact decimals model it faithfully.) -/
structure Dec where
  man : Int
  exp : Nat
deriving Repr, DecidableEq

/-- Exact product of two decimals (models float multiplication on the
claim-relevant values, where it is exact). -/
def Dec.mul (a b : Dec) : Dec := ⟨a.man * b.man, a.exp + b.exp⟩

instance : Mul Dec := ⟨Dec.mul⟩

/-- The rational value a decimal denotes. -/
def Dec.toRat (d : Dec) : Rat := (d.man : Rat) / ((10 : Rat) ^ d.exp)

/-- Numeric value of a digit run. -/
def digitsToNat (l : List Char) : Nat :=
  l.foldl (fun a c => a * 10 + (c.toNat - 48)) 0

/-- Model of Python `float(tok)` on the plain decimal literals that occur
in bulletins: optional sign, digits, optional fractional part; `none`
models `ValueError`.  (Exponents, `inf`/`nan` and surrounding whitespace
do not occur in bulletin tokens and are not modelled.) -/
def pyFloat? (s : String) : Option Dec :=
  let cs := s.toList
  let signAndRest : Int × List Char :=
    match cs with
    | '-' :: r => (-1, r)
    | '+' :: r => (1, r)
    | r => (1, r)
  let sign := signAndRest.1
  let body := signAndRest.2
  let ip := body.takeWhile Char.isDigit
  let rest := body.drop ip.length
  match rest with
  | [] => if ip = [] then none else some ⟨sign * (digitsToNat ip : Int), 0⟩
  | '.' :: r2 =>
      let fp := r2.takeWhile Char.isDigit
      let rest2 := r2.drop fp.length
      if rest2 = [] ∧ ¬(ip = [] ∧ fp = []) then
        some ⟨sign * ((digitsToNat ip : Int) * (10 : Int) ^ fp.length + (digitsToNat fp : Int)),
          fp.length⟩
      else none
  | _ => none

/-- Model of Python `int(tok)` on bulletin tokens: optional sign then
digits; `none` models `ValueError`. -/
def pyIntTok? (s : String) : Option Int :=
  let cs := s.toList
  let signAndRest : Int × List Char :=
    match cs with
    | '-' :: r => (-1, r)
    | '+' :: r => (1, r)
    | r => (1, r)
  let ds := signAndRest.2
  if ds ≠ [] ∧ ds.all Char.isDigit then some (signAndRest.1 * (digitsToNat ds : Int))
  else none

/-- Python `int(x)` on a finite float value: truncation toward zero. -/
def pyInt (d : Dec) : Int :=
  Int.tdiv d.man ((10 : Int) ^ d.exp)

/-- The meters-to-feet constant `M_TO_FT = 3.28084` of `parse_bull`. -/
def MTOFT : Dec := ⟨328084, 5⟩

/-- `(dir_raw + 180) % 360` of `parse_bull` (Python `%`, hence the
nonnegative remainder). -/
def dirNorm (raw : Int) : Int := (raw + 180) % 360

/-- One swell group as `parse_bull` represents it: height, period,
direction, each possibly absent. -/
abbrev SwellGroup := Option Dec × Option Dec × Option Int

/-! ## DayHour dialect row pieces (`parse_bull`, newer-format branch) -/

/-- The cleaned token list of one swell field: split on whitespace, strip
asterisks from each token, drop tokens that were only asterisks. -/
def cleanedTokens (field : String) : List String :=
  (pySplit field).filterMap fun t =>
    let tc := stripStars t
    if tc = "" then none else some tc

/-- One swell field of a DayHour data line: needs at least three cleaned
tokens, parsed as float/float/int; any parse failure yields the fully
absent group.  The stored height is in meters, exactly as parsed. -/
def parseSwellField (field : String) : SwellGroup :=
  match cleanedTokens field with
  | c0 :: c1 :: c2 :: _ =>
      match pyFloat? c0, pyFloat? c1, pyFloat? c2 with
      | some hs, some tp, some dq => (some hs, some tp, some (dirNorm (pyInt dq)))
      | _, _, _ => (none, none, none)
  | _ => (none, none, none)

/-- `while len(swell_groups) < 6: append (None,None,None)` followed by
truncation to six groups. -/
def ensureSix (gs : List SwellGroup) : List SwellGroup :=
  let padded := gs ++ List.replicate (6 - gs.length) ((none, none, none) : SwellGroup)
  if 6 < padded.length then padded.take 6 else padded

/-- Split a character list on a separator character (Python `line.split` on a separator, which keeps empty parts). -/
def splitCharAux (sep : Char) : List Char → List Char → List (List Char)
  | [], acc => [acc.reverse]
  | c :: rest, acc =>
      if c = sep then acc.reverse :: splitCharAux sep rest []
      else splitCharAux sep rest (c :: acc)

/-- Python `line.split` on the pipe character. -/
def splitPipe (s : String) : List String :=
  (splitCharAux '|' s.toList []).map String.mk

/-- One data row of the newer (DayHour) dialect as extracted by
`parse_bull`: the `(day, hour)` key, the combined height in meters, and
the six swell groups in meters. -/
structure NewRow where
  day : Int
  hour : Int
  combined : Option Dec
  groups : List SwellGroup
deriving Repr, DecidableEq

/-- One pass of the newer-format line loop of `parse_bull`: `none` when
the line is skipped (`continue`), `some` row otherwise.  (When the line
has no second pipe field the source would raise `IndexError` reading
`parts[1]`; that degenerate shape is outside every claim and modelled as
an absent combined height.) -/
def dayHourParseLine (line : String) : Option NewRow :=
  let striped := pyStrip line
  if ¬ (striped.toList.head? = some '|') then none
  else if containsSub striped "Hst" ∨ containsSub striped "---" then none
  else
    let parts := ((splitPipe line).map pyStrip).filter (fun p => p ≠ "")
    match parts with
    | [] => none
    | p0 :: restParts =>
        match pySplit p0 with
        | d0 :: h0 :: _ =>
            match pyIntTok? d0, pyIntTok? h0 with
            | some dv, some hv =>
                let combined :=
                  match pySplit (restParts.headD "") with
                  | [] => none
                  | t :: _ => pyFloat? (stripStars t)
                some { day := dv, hour := hv, combined := combined,
                       groups := ensureSix ((restParts.drop 1).map parseSwellField) }
            | _, _ => none
        | _ => none

/-- Presentation step of the newer-format branch: heights of present
groups are multiplied by `M_TO_FT` when the output row is assembled; the
other components are copied. -/
def assembleDisplayGroups (gs : List SwellGroup) : List SwellGroup :=
  gs.map fun g =>
    match g.1 with
    | none => ((none, none, none) : SwellGroup)
    | some hs => (some (hs * MTOFT), g.2.1, g.2.2)

/-- Presentation step for the combined height: `combined_hs_m * M_TO_FT`
when present. -/
def displayCombined (c : Option Dec) : Option Dec :=
  c.map (· * MTOFT)

/-! ## HourOffset dialect (`parse_bull`, older-format branch) -/

/-- Older-format header discovery: index of the line after the first line
whose stripped text starts with the literal `Hr`, scanning from `i`. -/
def findHrHeaderAux : Nat → List String → Option Nat
  | _, [] => none
  | i, l :: rest =>
      if ['H', 'r'].isPrefixOf (trimChars l.toList) then some (i + 1)
      else findHrHeaderAux (i + 1) rest

/-- `for idx, line in enumerate(lines): if line.strip().startswith("Hr"):
start_idx = idx + 1; break` — the whole header discovery of the
older-format branch. -/
def findHrHeader (lines : List String) : Option Nat :=
  findHrHeaderAux 0 lines

/-- The `while tokens_collected < 3 and idx_base < len(parts)` scanner of
the older-format swell extraction: strip asterisks, skip empty tokens,
fill the height (times `M_TO_FT`), period and direction slots in order,
skipping tokens that fail to parse for the current slot.  Returns the
group (fully absent when fewer than three values were collected) and the
unconsumed tokens. -/
def collectAux : List String → Nat → Option Dec → Option Dec → Option Int →
    SwellGroup × List String
  | toks, 3, a, b, c => ((a, b, c), toks)
  | [], _, _, _, _ => (((none, none, none) : SwellGroup), [])
  | t :: rest, k, a, b, c =>
      let tc := stripStars t
      if tc = "" then collectAux rest k a b c
      else
        match k with
        | 0 =>
            match pyFloat? tc with
            | some v => collectAux rest 1 (some (v * MTOFT)) b c
            | none => collectAux rest 0 a b c
        | 1 =>
            match pyFloat? tc with
            | some v => collectAux rest 2 a (some v) c
            | none => collectAux rest 1 a b c
        | _ =>
            match pyFloat? tc with
            | some v => collectAux rest 3 a b (some (dirNorm (pyInt v)))
            | none => collectAux rest 2 a b c

/-- `for _swell in range(6)`: extract `n` swell groups in sequence,
each consuming tokens from where the previous one stopped. -/
def collectGroups : Nat → List String → List SwellGroup
  | 0, _ => []
  | n + 1, toks =>
      match collectAux toks 0 none none none with
      | (g, rest) => g :: collectGroups n rest

/-- `for tok in reversed(parts)`: the combined height of an older-format
row is the last token (ignoring pure-asterisk tokens) that parses as a
float, times `M_TO_FT`. -/
def oldCombinedAux : List String → Option Dec
  | [] => none
  | t :: rest =>
      let tc := stripStars t
      if tc = "" then oldCombinedAux rest
      else
        match pyFloat? tc with
        | some v => some (v * MTOFT)
        | none => oldCombinedAux rest

/-- Combined height search over the reversed token list. -/
def oldCombined (parts : List String) : Option Dec :=
  oldCombinedAux parts.reverse

/-- One data row of the older (HourOffset) dialect: the parsed hour
offset, the six swell groups (heights already in feet — the source
multiplies by `3.28084` at parse time), and the combined height in
feet. -/
structure OldRow where
  hrOffset : Dec
  groups : List SwellGroup
  combined : Option Dec
deriving Repr, DecidableEq

/-- One pass of the older-format line loop of `parse_bull`: the line is
skipped (`none`) when it has fewer than 20 whitespace tokens or its first
token does not parse as a float; otherwise a row is produced
unconditionally, with swell groups taken from token index 6 onward. -/
def oldParseLine (line : String) : Option OldRow :=
  let parts := pySplit line
  if parts.length < 20 then none
  else
    match pyFloat? (parts.headD "") with
    | none => none
    | some hr =>
        some { hrOffset := hr,
               groups := collectGroups 6 (parts.drop 6),
               combined := oldCombined parts }

/-- The older-format `for line in lines[start_idx:]` loop: skipped lines
contribute nothing, accepted lines append their row in order. -/
def extractOldRows : List String → List OldRow
  | [] => []
  | l :: rest =>
      match oldParseLine l with
      | none => extractOldRows rest
      | some r => r :: extractOldRows rest

/-- The error message of `parse_bull` when the full scan produced no
rows. -/
def noDataMsg : String := "No data rows parsed from .bull file."

/-- Tail of `parse_bull`: `if not rows:` return no rows and the error
message, else return the rows and no error. -/
def finishParse {α : Type} (rows : List α) : Option (List α) × Option String :=
  if rows.isEmpty then (none, some noDataMsg) else (some rows, none)

/-- Whole-document result of the older-format branch (rows only; header
strings and presentation fields omitted). -/
def parseOldDocument (lines : List String) : Option (List OldRow) × Option String :=
  finishParse (extractOldRows lines)

/-- Whole-document result of the newer-format branch (rows only). -/
def parseNewDocument (lines : List String) : Option (List NewRow) × Option String :=
  finishParse (lines.filterMap dayHourParseLine)

/-! ## Spec-side definitions (used to state claims, not taken from the
source) -/

/-- Modelled from the spec: header-token normalization of §4.2 —
lower-case each token and strip non-alphanumeric characters. -/
def specNormalizeToken (s : String) : String :=
  String.mk ((s.toList.filter Char.isAlphanum).map Char.toLower)

/-- Modelled from the spec: the §4.2 synonym set for the hour-offset
header token. -/
def specHeaderSynonyms : List String := ["hr", "fhr", "hour"]

/-- Modelled from the spec: `x` is the earliest calendar instant at or
after `threshold` whose day-of-month and hour-of-day equal the row's
parsed `(d, h)` fields (C1's characterization of a reconstructed
timestamp). -/
def IsEarliestDayHourMatch (threshold : PyDateTime) (d h : Int) (x : PyDateTime) : Prop :=
  x.Valid ∧ threshold.toKey ≤ x.toKey ∧ (x.day : Int) = d ∧ (x.hour : Int) = h ∧
    ∀ y : PyDateTime, y.Valid → threshold.toKey ≤ y.toKey →
      (y.day : Int) = d → (y.hour : Int) = h → x.toKey ≤ y.toKey

/-- Modelled from the spec: the claim-C1 property of a whole parsed
DayHour document — each row's timestamp is the earliest match at or after
the running threshold, and the threshold advances to the chosen instant
before the next row. -/
def C1Thread : PyDateTime → List (Int × Int) → List PyDateTime → Prop
  | thr, (d, h) :: ts, x :: xs => IsEarliestDayHourMatch thr d h x ∧ C1Thread x ts xs
  | _, _, _ => True

/-! ## Calendar lemmas for the monotonicity claims -/

theorem daysInMonth_bounds (y : Int) (m : Nat) :
    1 ≤ daysInMonth y m ∧ daysInMonth y m ≤ 31 := by
  unfold daysInMonth
  split
  · split <;> omega
  · split <;> omega

theorem addDay_valid {t : PyDateTime} (h : t.Valid) : (addDay t).Valid := by
  obtain ⟨h1, h2, h3, h4, h5, h6, h7, h8⟩ := h
  have hb2 := (daysInMonth_bounds t.year (t.month + 1)).1
  have hb3 := (daysInMonth_bounds (t.year + 1) 1).1
  unfold addDay
  split
  · unfold PyDateTime.Valid; dsimp only; omega
  · split <;> (unfold PyDateTime.Valid; dsimp only; omega)

theorem addHour_valid {t : PyDateTime} (h : t.Valid) : (addHour t).Valid := by
  obtain ⟨h1, h2, h3, h4, h5, h6, h7, h8⟩ := h
  unfold addHour
  split
  · unfold PyDateTime.Valid; dsimp only; omega
  · apply addDay_valid
    unfold PyDateTime.Valid; dsimp only; omega

theorem toKey_lt_addDay {t : PyDateTime} (h : t.Valid) : t.toKey < (addDay t).toKey := by
  obtain ⟨h1, h2, h3, h4, h5, h6, h7, h8⟩ := h
  have hb := daysInMonth_bounds t.year t.month
  unfold addDay
  split
  · unfold PyDateTime.toKey; dsimp only; omega
  · split <;> (unfold PyDateTime.toKey; dsimp only; push_cast; omega)

theorem toKey_lt_addHour {t : PyDateTime} (h : t.Valid) : t.toKey < (addHour t).toKey := by
  obtain ⟨h1, h2, h3, h4, h5, h6, h7, h8⟩ := h
  have hb := daysInMonth_bounds t.year t.month
  unfold addHour
  split
  · unfold PyDateTime.toKey; dsimp only; omega
  · unfold addDay
    split
    · unfold PyDateTime.toKey; dsimp only; omega
    · split <;> (unfold PyDateTime.toKey; dsimp only; push_cast; omega)

theorem replaceDayHour_valid {t : PyDateTime} {d h : Int} {x : PyDateTime}
    (ht : t.Valid) (hx : replaceDayHour t d h = some x) : x.Valid := by
  obtain ⟨h1, h2, h3, h4, h5, h6, h7, h8⟩ := ht
  unfold replaceDayHour at hx
  split at hx
  · rename_i hc
    obtain ⟨hc1, hc2, hc3, hc4⟩ := hc
    cases hx
    unfold PyDateTime.Valid; dsimp only; omega
  · cases hx

theorem rollForward_valid (fuel : Nat) (cycle : PyDateTime) {dt : PyDateTime}
    (h : dt.Valid) : (rollForward fuel cycle dt).Valid := by
  induction fuel generalizing dt with
  | zero => exact h
  | succ n ih =>
      unfold rollForward
      split
      · exact ih (addDay_valid h)
      · exact h

/-! ## Structure lemmas on the hourly series -/

theorem hourlySeriesAux_some_cons (last cycle : PyDateTime) (t : Int × Int)
    (rest : List (Int × Int)) :
    hourlySeriesAux (some last) cycle (t :: rest) =
      addHour last :: hourlySeriesAux (some (addHour last)) cycle rest := rfl

theorem aux_some_chain (cycle : PyDateTime) :
    ∀ (ts : List (Int × Int)) (last : PyDateTime), last.Valid →
      List.Chain' (fun a b => b = addHour a ∧ a.toKey < b.toKey)
        (hourlySeriesAux (some last) cycle ts) := by
  intro ts
  induction ts with
  | nil => intro last h; simp [hourlySeriesAux]
  | cons t rest ih =>
      intro last h
      rw [hourlySeriesAux_some_cons, List.chain'_cons']
      refine ⟨?_, ih (addHour last) (addHour_valid h)⟩
      intro y hy
      cases rest with
      | nil => simp [hourlySeriesAux] at hy
      | cons t2 r2 =>
          rw [hourlySeriesAux_some_cons] at hy
          simp only [List.head?_cons, Option.mem_def, Option.some.injEq] at hy
          subst hy
          exact ⟨rfl, toKey_lt_addHour (addHour_valid h)⟩

theorem aux_some_chain_eq (cycle : PyDateTime) :
    ∀ (ts : List (Int × Int)) (last : PyDateTime),
      List.Chain' (fun a b => b = addHour a)
        (hourlySeriesAux (some last) cycle ts) := by
  intro ts
  induction ts with
  | nil => intro last; simp [hourlySeriesAux]
  | cons t rest ih =>
      intro last
      rw [hourlySeriesAux_some_cons, List.chain'_cons']
      refine ⟨?_, ih (addHour last)⟩
      intro y hy
      cases rest with
      | nil => simp [hourlySeriesAux] at hy
      | cons t2 r2 =>
          rw [hourlySeriesAux_some_cons] at hy
          simp only [List.head?_cons, Option.mem_def, Option.some.injEq] at hy
          subst hy
          rfl

theorem aux_none_chain (cycle : PyDateTime) (hv : cycle.Valid) :
    ∀ ts : List (Int × Int),
      List.Chain' (fun a b => b = addHour a ∧ a.toKey < b.toKey)
        (hourlySeriesAux none cycle ts) := by
  intro ts
  induction ts with
  | nil => simp [hourlySeriesAux]
  | cons t rest ih =>
      obtain ⟨d, h⟩ := t
      rcases hrep : replaceDayHour cycle d h with _ | dt0
      · simpa [hourlySeriesAux, hrep] using ih
      · have hva : (rollForward 40 cycle dt0).Valid :=
          rollForward_valid 40 cycle (replaceDayHour_valid hv hrep)
        simp only [hourlySeriesAux, hrep]
        rw [List.chain'_cons']
        refine ⟨?_, aux_some_chain cycle rest _ hva⟩
        intro y hy
        cases rest with
        | nil => simp [hourlySeriesAux] at hy
        | cons t2 r2 =>
            rw [hourlySeriesAux_some_cons] at hy
            simp only [List.head?_cons, Option.mem_def, Option.some.injEq] at hy
            subst hy
            exact ⟨rfl, toKey_lt_addHour hva⟩

theorem aux_none_chain_eq (cycle : PyDateTime) :
    ∀ ts : List (Int × Int),
      List.Chain' (fun a b => b = addHour a) (hourlySeriesAux none cycle ts) := by
  intro ts
  induction ts with
  | nil => simp [hourlySeriesAux]
  | cons t rest ih =>
      obtain ⟨d, h⟩ := t
      rcases hrep : replaceDayHour cycle d h with _ | dt0
      · simpa [hourlySeriesAux, hrep] using ih
      · simp only [hourlySeriesAux, hrep]
        rw [List.chain'_cons']
        refine ⟨?_, aux_some_chain_eq cycle rest _⟩
        intro y hy
        cases rest with
        | nil => simp [hourlySeriesAux] at hy
        | cons t2 r2 =>
            rw [hourlySeriesAux_some_cons] at hy
            simp only [List.head?_cons, Option.mem_def, Option.some.injEq] at hy
            subst hy
            rfl

theorem aux_none_anchor (cycle : PyDateTime) :
    ∀ (ts : List (Int × Int)) (x : PyDateTime),
      (hourlySeriesAux none cycle ts).head? = some x →
      ∃ pre d hh rest, ts = pre ++ (d, hh) :: rest ∧
        (∀ p ∈ pre, replaceDayHour cycle p.1 p.2 = none) ∧
        ∃ dt0, replaceDayHour cycle d hh = some dt0 ∧ x = rollForward 40 cycle dt0 := by
  intro ts
  induction ts with
  | nil => intro x hx; simp [hourlySeriesAux] at hx
  | cons t rest ih =>
      obtain ⟨d, h⟩ := t
      intro x hx
      rcases hrep : replaceDayHour cycle d h with _ | dt0
      · rw [show hourlySeriesAux none cycle ((d, h) :: rest) =
            hourlySeriesAux none cycle rest by simp [hourlySeriesAux, hrep]] at hx
        obtain ⟨pre, d1, h1, r1, he, hpre, hdt⟩ := ih x hx
        refine ⟨(d, h) :: pre, d1, h1, r1, by simp [he], ?_, hdt⟩
        intro p hp
        rcases List.mem_cons.mp hp with hp1 | hp2
        · subst hp1; exact hrep
        · exact hpre p hp2
      · simp only [hourlySeriesAux, hrep, List.head?_cons, Option.some.injEq] at hx
        exact ⟨[], d, h, rest, rfl, by simp, dt0, hrep, hx.symm⟩

/-! ## Claim theorems -/

/-- C1 (counterexample): the claim says every parsed DayHour row gets the
earliest instant at or after the running threshold whose day-of-month and
hour-of-day match the row's `(day, hour)` fields.  With
`cycle_utc = 2025-01-01T00:00Z` and rows `(1,0), (5,0)` the code returns
`2025-01-01T00:00Z, 2025-01-01T01:00Z`: the second timestamp has
day-of-month 1, not 5, because after the first row the code adds exactly
one hour and ignores the row's fields. -/
theorem c1_threshold_search_counterexample :
    hourly_series_from_day_hour .utc ⟨2025, 1, 1, 0, 0, 0, 0⟩ [(1, 0), (5, 0)] =
      .ok [⟨2025, 1, 1, 0, 0, 0, 0⟩, ⟨2025, 1, 1, 1, 0, 0, 0⟩] ∧
    ¬ C1Thread ⟨2025, 1, 1, 0, 0, 0, 0⟩ [(1, 0), (5, 0)]
        [⟨2025, 1, 1, 0, 0, 0, 0⟩, ⟨2025, 1, 1, 1, 0, 0, 0⟩] := by
  refine ⟨rfl, fun hth => ?_⟩
  exact absurd hth.2.1.2.2.1 (by decide)

/-- C1 (amended): in a successfully returned DayHour series, the first
timestamp comes from the first tuple whose day is a valid day of the
cycle's own month (earlier tuples having been skipped): it is
`cycle.replace(day, hour)` rolled forward by whole days while still before
the cycle time.  Every later timestamp is exactly one hour after the
previous one; the later tuples' `(day, hour)` fields are not consulted. -/
theorem c1_anchor_plus_one_hour (tz : TZInfo) (cycle : PyDateTime)
    (tuples : List (Int × Int)) (res : List PyDateTime)
    (h : hourly_series_from_day_hour tz cycle tuples = .ok res) :
    List.Chain' (fun a b => b = addHour a) res ∧
    ∀ x, res.head? = some x →
      ∃ pre d hh rest, tuples = pre ++ (d, hh) :: rest ∧
        (∀ p ∈ pre, replaceDayHour cycle p.1 p.2 = none) ∧
        ∃ dt0, replaceDayHour cycle d hh = some dt0 ∧ x = rollForward 40 cycle dt0 := by
  unfold hourly_series_from_day_hour at h
  split at h
  · cases h
  · cases h
    exact ⟨aux_none_chain_eq cycle tuples, aux_none_anchor cycle tuples⟩

/-- C1 (witness for the amended theorem), at the counterexample input. -/
theorem c1_anchor_plus_one_hour_witness :
    List.Chain' (fun a b => b = addHour a)
      [(⟨2025, 1, 1, 0, 0, 0, 0⟩ : PyDateTime), ⟨2025, 1, 1, 1, 0, 0, 0⟩] :=
  (c1_anchor_plus_one_hour .utc ⟨2025, 1, 1, 0, 0, 0, 0⟩ [(1, 0), (5, 0)]
    [⟨2025, 1, 1, 0, 0, 0, 0⟩, ⟨2025, 1, 1, 1, 0, 0, 0⟩] rfl).1

/-- `utc_dt = cycle_dt_utc_old + timedelta(hours=hr_offset)` of the
HourOffset branch, for a whole-hour offset `n`: `n` hours after the
model-run time. -/
def hourOffsetTime (cycle : PyDateTime) (n : Nat) : PyDateTime :=
  addHour^[n] cycle

/-- An accepted HourOffset data line whose hour-offset token is `3`. -/
def demoOffset3Line : String := "3 x x x x x 1.0 10.0 200 x x x x x x x x x x x"

/-- An accepted HourOffset data line whose hour-offset token is `1`. -/
def demoOffset1Line : String := "1 x x x x x 1.0 10.0 200 x x x x x x x x x x x"

/-- The row the source parses from `demoOffset3Line`. -/
def demoOffset3Row : OldRow :=
  { hrOffset := ⟨3, 0⟩,
    groups := [(some ⟨3280840, 6⟩, some ⟨100, 1⟩, some 20),
               (none, none, none), (none, none, none), (none, none, none),
               (none, none, none), (none, none, none)],
    combined := some ⟨65616800, 5⟩ }

/-- The row the source parses from `demoOffset1Line`. -/
def demoOffset1Row : OldRow :=
  { demoOffset3Row with hrOffset := ⟨1, 0⟩ }

/-- C2 (counterexample): the claim covers every successfully parsed
bulletin, but the HourOffset branch appends each row at
`cycle + timedelta(hours=hr_offset)` in file order with no ordering or
step check.  A document whose `Hr` header is followed by data lines with
hour offsets 3 then 1 parses successfully (header found, two rows, no
error), and the second row's timestamp — one hour after the
2025-01-01T00:00Z model run — is strictly earlier than the first row's,
three hours after it: a backward jump, and not a +1 hour step. -/
theorem c2_monotonicity_counterexample :
    findHrHeader ["Hr stuff", demoOffset3Line, demoOffset1Line] = some 1 ∧
    parseOldDocument [demoOffset3Line, demoOffset1Line] =
      (some [demoOffset3Row, demoOffset1Row], none) ∧
    demoOffset3Row.hrOffset = ⟨3, 0⟩ ∧ demoOffset1Row.hrOffset = ⟨1, 0⟩ ∧
    (hourOffsetTime ⟨2025, 1, 1, 0, 0, 0, 0⟩ 1).toKey <
      (hourOffsetTime ⟨2025, 1, 1, 0, 0, 0, 0⟩ 3).toKey ∧
    hourOffsetTime ⟨2025, 1, 1, 0, 0, 0, 0⟩ 1 ≠
      addHour (hourOffsetTime ⟨2025, 1, 1, 0, 0, 0, 0⟩ 3) :=
  ⟨by decide, by decide, by decide, by decide, by decide, by decide⟩

/-- C2 (amended): the strict-monotonicity/exact-hourly-step invariant
holds for the DayHour dialect's series builder: in every successfully
built series (valid model-run datetime), consecutive timestamps differ
by exactly one hour and the sequence is strictly increasing — never a
smaller step, never a backward jump.  The HourOffset branch places rows
at `cycle + hour_offset` hours in file order with no such guarantee. -/
theorem c2_series_strictly_hourly (tz : TZInfo) (cycle : PyDateTime)
    (tuples : List (Int × Int)) (res : List PyDateTime)
    (hv : cycle.Valid)
    (h : hourly_series_from_day_hour tz cycle tuples = .ok res) :
    List.Chain' (fun a b => b = addHour a ∧ a.toKey < b.toKey) res := by
  unfold hourly_series_from_day_hour at h
  split at h
  · cases h
  · cases h
    exact aux_none_chain cycle hv tuples

/-- C2 (witness), on the month-rollover cycle date. -/
theorem c2_series_strictly_hourly_witness :
    List.Chain' (fun a b => b = addHour a ∧ a.toKey < b.toKey)
      [(⟨2025, 8, 31, 12, 0, 0, 0⟩ : PyDateTime), ⟨2025, 8, 31, 13, 0, 0, 0⟩] :=
  c2_series_strictly_hourly .utc ⟨2025, 8, 31, 12, 0, 0, 0⟩ [(31, 12), (31, 13)]
    [⟨2025, 8, 31, 12, 0, 0, 0⟩, ⟨2025, 8, 31, 13, 0, 0, 0⟩] (by decide) rfl

/-- C3: with `cycle_utc = 2025-08-31T12:00Z` and DayHour rows
`(31,12) .. (31,23), (1,0), (1,1)` the reconstructed series is hourly
from 2025-08-31T12:00Z through 2025-08-31T23:00Z, then 2025-09-01T00:00Z
and 2025-09-01T01:00Z — no timestamp falls back into August. -/
theorem c3_month_rollover_concrete :
    hourly_series_from_day_hour .utc ⟨2025, 8, 31, 12, 0, 0, 0⟩
      [(31, 12), (31, 13), (31, 14), (31, 15), (31, 16), (31, 17), (31, 18),
       (31, 19), (31, 20), (31, 21), (31, 22), (31, 23), (1, 0), (1, 1)] =
    .ok [⟨2025, 8, 31, 12, 0, 0, 0⟩, ⟨2025, 8, 31, 13, 0, 0, 0⟩,
         ⟨2025, 8, 31, 14, 0, 0, 0⟩, ⟨2025, 8, 31, 15, 0, 0, 0⟩,
         ⟨2025, 8, 31, 16, 0, 0, 0⟩, ⟨2025, 8, 31, 17, 0, 0, 0⟩,
         ⟨2025, 8, 31, 18, 0, 0, 0⟩, ⟨2025, 8, 31, 19, 0, 0, 0⟩,
         ⟨2025, 8, 31, 20, 0, 0, 0⟩, ⟨2025, 8, 31, 21, 0, 0, 0⟩,
         ⟨2025, 8, 31, 22, 0, 0, 0⟩, ⟨2025, 8, 31, 23, 0, 0, 0⟩,
         ⟨2025, 9, 1, 0, 0, 0, 0⟩, ⟨2025, 9, 1, 1, 0, 0, 0⟩] := rfl

theorem findHrHeaderAux_isSome (i : Nat) (lines : List String) :
    (findHrHeaderAux i lines).isSome ↔
      ∃ l ∈ lines, ['H', 'r'].isPrefixOf (trimChars l.toList) = true := by
  induction lines generalizing i with
  | nil => simp [findHrHeaderAux]
  | cons l rest ih =>
      unfold findHrHeaderAux
      by_cases hc : ['H', 'r'].isPrefixOf (trimChars l.toList) = true
      · rw [if_pos hc]
        simp only [Option.isSome_some, true_iff]
        exact ⟨l, List.mem_cons_self l rest, hc⟩
      · rw [if_neg hc, ih (i + 1)]
        constructor
        · rintro ⟨a, ha, hpa⟩
          exact ⟨a, List.mem_cons_of_mem l ha, hpa⟩
        · rintro ⟨a, ha, hpa⟩
          rcases List.mem_cons.mp ha with h1 | h2
          · subst h1; exact absurd hpa hc
          · exact ⟨a, h2, hpa⟩

/-- C4 (counterexample): the claim says any first token normalizing to
`hr` (such as `HR`) makes the header row findable.  The code matches with
a case-sensitive `startswith("Hr")` and finds no header in a document
whose header line is `HR 0 1 2`. -/
theorem c4_header_tolerance_counterexample :
    specNormalizeToken "HR" ∈ specHeaderSynonyms ∧
    findHrHeader ["HR 0 1 2"] = none := by
  exact ⟨by decide, rfl⟩

/-- C4 (amended): header discovery in the HourOffset dialect scans every
line (no 120/160-line caps, no token normalization, no synonym set) and
succeeds exactly when some line's stripped text starts with the
case-sensitive literal `Hr`. -/
theorem c4_header_discovery_amended (lines : List String) :
    (findHrHeader lines).isSome ↔
      ∃ l ∈ lines, ['H', 'r'].isPrefixOf (trimChars l.toList) = true :=
  findHrHeaderAux_isSome 0 lines

/-- C5 (counterexample): the claim says a line produces a row exactly when
its hour-offset token parses as a number.  The line `5 1 2` has a numeric
hour-offset token yet produces no row, because the code also requires at
least 20 whitespace tokens. -/
theorem c5_acceptance_counterexample :
    pyFloat? "5" = some ⟨5, 0⟩ ∧ (pySplit "5 1 2").headD "" = "5" ∧
    oldParseLine "5 1 2" = none :=
  ⟨by decide, by decide, by decide⟩

/-- C5 (amended): an older-format line produces a row exactly when it has
at least 20 whitespace tokens and its first token parses as a number; a
skipped line contributes nothing (no error) and later lines are still
parsed; once accepted, the row is appended with no further validity check
on the swell values. -/
theorem c5_acceptance_amended :
    (∀ line, (oldParseLine line).isSome ↔
        (20 ≤ (pySplit line).length ∧ (pyFloat? ((pySplit line).headD "")).isSome)) ∧
    (∀ l rest, oldParseLine l = none →
        extractOldRows (l :: rest) = extractOldRows rest) ∧
    (∀ l rest r, oldParseLine l = some r →
        extractOldRows (l :: rest) = r :: extractOldRows rest) := by
  refine ⟨fun line => ?_, fun l rest h => ?_, fun l rest r h => ?_⟩
  · simp only [oldParseLine]
    split
    · rename_i hlen
      simp only [Option.isSome_none, Bool.false_eq_true, false_iff]
      omega
    · rename_i hlen
      rcases hf : pyFloat? ((pySplit line).headD "") with _ | v <;> simp [hf]
      omega
  · simp only [extractOldRows, h]
  · simp only [extractOldRows, h]

/-- A concrete accepted HourOffset data line (20 tokens, numeric hour
offset, one complete swell triple whose height token reads `1.0`). -/
def demoOldLine : String := "5 x x x x x 1.0 10.0 200 x x x x x x x x x x x"

/-- The row the source parses from `demoOldLine`. -/
def demoOldRow : OldRow :=
  { hrOffset := ⟨5, 0⟩,
    groups := [(some ⟨3280840, 6⟩, some ⟨100, 1⟩, some 20),
               (none, none, none), (none, none, none), (none, none, none),
               (none, none, none), (none, none, none)],
    combined := some ⟨65616800, 5⟩ }

/-- C5 (witness for the amended theorem): a line with a numeric
hour-offset but fewer than 20 tokens is skipped, and the following valid
line is still parsed. -/
theorem c5_acceptance_witness :
    extractOldRows ["5 1 2", demoOldLine] = [demoOldRow] := by
  rw [c5_acceptance_amended.2.1 "5 1 2" [demoOldLine] (by decide),
    c5_acceptance_amended.2.2 demoOldLine [] demoOldRow (by decide)]
  rfl

/-- C6 (counterexample): the claim says every parsed row stores swell
heights in meters exactly as read.  On `demoOldLine` the height token
reads `1.0` (one meter), but the HourOffset parser stores
`1.0 * 3.28084` — it converts to feet at parse time, not at the
presentation boundary. -/
theorem c6_unit_storage_counterexample :
    ((oldParseLine demoOldLine).map fun r => r.groups.headD (none, none, none)) =
      some (some ⟨3280840, 6⟩, some ⟨100, 1⟩, some 20) ∧
    pyFloat? "1.0" = some ⟨10, 1⟩ ∧
    Dec.toRat ⟨3280840, 6⟩ ≠ Dec.toRat ⟨10, 1⟩ := by
  refine ⟨by decide, by decide, ?_⟩
  unfold Dec.toRat
  norm_num

/-- C6 (amended): in the DayHour dialect, swell heights and the combined
height are parsed and held in meters, and the meters-to-feet product is
formed only when the output row is assembled, leaving the parsed group
unchanged; in the HourOffset dialect the conversion happens at parse
time (heights are stored already multiplied by `M_TO_FT`). -/
theorem c6_unit_conversion_amended :
    (∀ (gs : List SwellGroup) (i : Nat) (hs : Dec) (tp : Option Dec) (d : Option Int),
        gs[i]? = some (some hs, tp, d) →
        (assembleDisplayGroups gs)[i]? = some (some (hs * MTOFT), tp, d)) ∧
    (∀ v : Dec, displayCombined (some v) = some (v * MTOFT)) ∧
    (∀ field c0 c1 c2 rest v v1 v2, cleanedTokens field = c0 :: c1 :: c2 :: rest →
        pyFloat? c0 = some v → pyFloat? c1 = some v1 → pyFloat? c2 = some v2 →
        parseSwellField field = (some v, some v1, some (dirNorm (pyInt v2)))) ∧
    (∀ t rest v, stripStars t ≠ "" → pyFloat? (stripStars t) = some v →
        collectAux (t :: rest) 0 none none none =
          collectAux rest 1 (some (v * MTOFT)) none none) := by
  refine ⟨fun gs i hs tp d h => ?_, fun v => rfl,
    fun field c0 c1 c2 rest v v1 v2 hcl h0 h1 h2 => ?_, fun t rest v hne hv => ?_⟩
  · unfold assembleDisplayGroups
    rw [List.getElem?_map, h]
    rfl
  · simp only [parseSwellField, hcl, h0, h1, h2]
  · conv_lhs => rw [collectAux.eq_def]
    dsimp only
    rw [if_neg hne, hv]

/-- C6 (witness for the amended theorem). -/
theorem c6_unit_conversion_witness :
    (assembleDisplayGroups [(some ⟨10, 1⟩, some ⟨80, 1⟩, some 20)])[0]? =
      some (some ((⟨10, 1⟩ : Dec) * MTOFT), some ⟨80, 1⟩, some 20) :=
  c6_unit_conversion_amended.1 [(some ⟨10, 1⟩, some ⟨80, 1⟩, some 20)] 0 ⟨10, 1⟩
    (some ⟨80, 1⟩) (some 20) rfl

/-- C7: the stored DayHour direction is `(raw + 180) mod 360`, always in
`[0, 360)`; raw 200 is stored as 20 and raw 350 as 170, and every present
direction a parsed swell field carries is in range. -/
theorem c7_direction_normalization :
    (∀ raw : Int, 0 ≤ dirNorm raw ∧ dirNorm raw < 360) ∧
    dirNorm 200 = 20 ∧ dirNorm 350 = 170 ∧
    (∀ field hs tp d, parseSwellField field = (hs, tp, some d) → 0 ≤ d ∧ d < 360) := by
  refine ⟨fun raw => ?_, by decide, by decide, fun field hs tp d h => ?_⟩
  · unfold dirNorm; omega
  · unfold parseSwellField at h
    repeat' split at h
    all_goals first
      | (simp only [Prod.mk.injEq, Option.some.injEq] at h
         obtain ⟨-, -, hd⟩ := h
         subst hd
         unfold dirNorm
         omega)
      | simp at h

/-- C7 (witness). -/
theorem c7_direction_normalization_witness :
    parseSwellField "1.0 8.0 200" = (some ⟨10, 1⟩, some ⟨80, 1⟩, some 20) ∧
    (0 ≤ (20 : Int) ∧ (20 : Int) < 360) :=
  ⟨by decide,
    c7_direction_normalization.2.2.2 "1.0 8.0 200" (some ⟨10, 1⟩) (some ⟨80, 1⟩) 20 (by decide)⟩

theorem ensureSix_length (gs : List SwellGroup) : (ensureSix gs).length = 6 := by
  unfold ensureSix
  dsimp only
  split
  · rename_i hgt
    simp only [List.length_take]
    simp only [List.length_append, List.length_replicate] at hgt ⊢
    omega
  · rename_i hle
    simp only [List.length_append, List.length_replicate] at hle ⊢
    omega

theorem collectGroups_length : ∀ (n : Nat) (toks : List String),
    (collectGroups n toks).length = n := by
  intro n
  induction n with
  | zero => intro toks; rfl
  | succ m ih =>
      intro toks
      rcases hc : collectAux toks 0 none none none with ⟨g, rest⟩
      simp [collectGroups, hc, ih]

/-- C8: every parsed row, in either dialect, carries exactly 6 swell
group slots — fewer advertised groups are padded with fully absent
groups, more than 6 are truncated. -/
theorem c8_fixed_group_count :
    (∀ gs, (ensureSix gs).length = 6) ∧
    (∀ line r, dayHourParseLine line = some r → r.groups.length = 6) ∧
    (∀ line r, oldParseLine line = some r → r.groups.length = 6) := by
  refine ⟨ensureSix_length, fun line r h => ?_, fun line r h => ?_⟩
  · unfold dayHourParseLine at h
    dsimp only at h
    repeat' split at h
    all_goals cases h
    all_goals exact ensureSix_length _
  · unfold oldParseLine at h
    dsimp only at h
    repeat' split at h
    all_goals cases h
    all_goals exact collectGroups_length 6 _

/-- A concrete accepted DayHour data line with one advertised swell
triple. -/
def demoNewLine : String := "| 01 13 | 1.5 | 1.0 8.0 200 |"

/-- The row the source parses from `demoNewLine` (one real group, five
padded absent groups). -/
def demoNewRow : NewRow :=
  { day := 1, hour := 13, combined := some ⟨15, 1⟩,
    groups := [(some ⟨10, 1⟩, some ⟨80, 1⟩, some 20),
               (none, none, none), (none, none, none), (none, none, none),
               (none, none, none), (none, none, none)] }

/-- C8 (witness). -/
theorem c8_fixed_group_count_witness :
    dayHourParseLine demoNewLine = some demoNewRow ∧ demoNewRow.groups.length = 6 :=
  ⟨by decide, c8_fixed_group_count.2.1 demoNewLine demoNewRow (by decide)⟩

/-- C9: a full scan that produces zero data rows yields the no-data fatal
error with the row list absent — never an empty successful row list —
in both dialects. -/
theorem c9_no_data_rows_fatal :
    (∀ lines, extractOldRows lines = [] → parseOldDocument lines = (none, some noDataMsg)) ∧
    (∀ lines, lines.filterMap dayHourParseLine = [] →
        parseNewDocument lines = (none, some noDataMsg)) ∧
    (∀ lines rows e, parseOldDocument lines = (some rows, e) → rows ≠ []) ∧
    (∀ lines rows e, parseNewDocument lines = (some rows, e) → rows ≠ []) := by
  refine ⟨fun lines h => ?_, fun lines h => ?_,
    fun lines rows e h => ?_, fun lines rows e h => ?_⟩
  · unfold parseOldDocument finishParse
    rw [h]
    rfl
  · unfold parseNewDocument finishParse
    rw [h]
    rfl
  · unfold parseOldDocument finishParse at h
    split at h
    · simp at h
    · rename_i hne
      simp only [Prod.mk.injEq, Option.some.injEq] at h
      obtain ⟨h1, -⟩ := h
      subst h1
      simpa using hne
  · unfold parseNewDocument finishParse at h
    split at h
    · simp at h
    · rename_i hne
      simp only [Prod.mk.injEq, Option.some.injEq] at h
      obtain ⟨h1, -⟩ := h
      subst h1
      simpa using hne

/-- C9 (witness). -/
theorem c9_no_data_rows_witness :
    parseOldDocument ["junk"] = (none, some noDataMsg) :=
  c9_no_data_rows_fatal.1 ["junk"] (by decide)

/-- C10: `hourly_series_from_day_hour` fails with the timezone
`ValueError` exactly when the cycle datetime is not timezone-aware UTC
(including naive datetimes), independently of the `(day, hour)` tuples;
with a UTC-aware cycle it never raises and returns the series, for every
tuple list. -/
theorem c10_tz_guard :
    (∀ tz cycle tuples, tz ≠ TZInfo.utc →
        hourly_series_from_day_hour tz cycle tuples =
          .error "cycle_dt_utc must be timezone-aware UTC") ∧
    (∀ cycle tuples, hourly_series_from_day_hour TZInfo.utc cycle tuples =
        .ok (hourlySeriesAux none cycle tuples)) := by
  constructor
  · intro tz cycle tuples h
    unfold hourly_series_from_day_hour
    rw [if_pos h]
  · intro cycle tuples
    rfl

/-- C10 (witness): a naive cycle datetime is rejected before any tuple is
examined. -/
theorem c10_tz_guard_witness :
    hourly_series_from_day_hour TZInfo.naive ⟨2025, 1, 1, 0, 0, 0, 0⟩ [(1, 0)] =
      .error "cycle_dt_utc must be timezone-aware UTC" :=
  c10_tz_guard.1 TZInfo.naive ⟨2025, 1, 1, 0, 0, 0, 0⟩ [(1, 0)] (by decide)
